import Mathlib

/-!
Verification of the f1-backend track-dominance core and its numeric
coercion boundary.

The repository exposes Formula 1 data over REST.  The component under
study here is the track-dominance segment-comparison core (lap
selection, telemetry distance augmentation, position normalization,
fixed-count segment comparison with interpolated time-at-distance
advantage) together with the tolerant scalar-coercion helper
`safe_float_conversion` from `app/api/v1/endpoints/telemetry.py`.

All numbers are modelled as rationals (`ℚ`): the Python code works with
IEEE doubles, but every property considered here is about ordering,
composition and case analysis, not rounding.
-/

namespace F1Backend

/-! ## Python value model for `safe_float_conversion`

`safe_float_conversion` (telemetry.py, lines 26-35) is:

```python
def safe_float_conversion(value, default=0.0):
    if value is None or pd.isna(value):
        return default
    if hasattr(value, 'total_seconds'):
        return float(value.total_seconds())
    try:
        return float(value)
    except (ValueError, TypeError):
        return default
```

The `try` only guards the `float(value)` call.  `pd.isna` returns a
plain `bool` for scalar arguments but an element-wise boolean array for
array-like arguments (lists, numpy arrays); using such an array as the
condition of `if` raises `ValueError` ("truth value of an array with
more than one element is ambiguous"), and nothing catches it.
-/

/-- A Python value as seen by `safe_float_conversion`.  Scalars are
split by how the function's tests classify them; `pyArray` is an
array-like argument carrying the element-wise `pd.isna` result. -/
inductive PyVal where
  /-- the Python `None` object -/
  | pyNone : PyVal
  /-- a scalar for which `pd.isna` is `True` (`float('nan')`, `pd.NaT`, …) -/
  | pyNaN : PyVal
  /-- an object with a `total_seconds` method returning the given seconds -/
  | pyTimedelta (seconds : ℚ) : PyVal
  /-- a scalar that `float()` converts successfully to the given value -/
  | pyNum (val : ℚ) : PyVal
  /-- a scalar with no `total_seconds` for which `float()` raises
  `ValueError` or `TypeError` (e.g. a non-numeric string) -/
  | pyUnconvertible : PyVal
  /-- an array-like value (list, numpy array); `pd.isna` returns the
  element-wise boolean array recorded here -/
  | pyArray (isnaMask : List Bool) : PyVal
deriving DecidableEq

/-- The uncaught exceptions `safe_float_conversion` can raise. -/
inductive PyError where
  /-- the numpy error `ValueError: The truth value of an array … is ambiguous` -/
  | valueError : PyError
deriving DecidableEq

/-- Result of `pd.isna`: a scalar `bool` or an element-wise array. -/
inductive IsnaResult where
  | scalar (b : Bool) : IsnaResult
  | array (mask : List Bool) : IsnaResult
deriving DecidableEq

/-- Behaviour of `pd.isna` on each modelled value. -/
def pdIsna : PyVal → IsnaResult
  | .pyNone => .scalar true
  | .pyNaN => .scalar true
  | .pyTimedelta _ => .scalar false
  | .pyNum _ => .scalar false
  | .pyUnconvertible => .scalar false
  | .pyArray mask => .array mask

/-- Python truthiness of an `pd.isna` result used as an `if` condition.
A one-element array collapses to its element; an array of any other
length raises `ValueError` (numpy's ambiguous-truth-value error). -/
def isnaTruthy : IsnaResult → Except PyError Bool
  | .scalar b => .ok b
  | .array [b] => .ok b
  | .array _ => .error .valueError

/-- Result of `value.total_seconds()` when the attribute exists. -/
def totalSeconds : PyVal → Option ℚ
  | .pyTimedelta s => some s
  | _ => none

/-- Result of `float(value)`, `none` when it raises `ValueError` or
`TypeError` (which the source catches). -/
def tryFloat : PyVal → Option ℚ
  | .pyNum q => some q
  | .pyTimedelta s => some s
  | _ => none

/-- Shallow embedding of `safe_float_conversion` (telemetry.py 26-35).
`Except` carries the one uncaught exception path. -/
def safeFloatConversion (value : PyVal) (default : ℚ := 0) : Except PyError ℚ :=
  if value = .pyNone then .ok default
  else
    match isnaTruthy (pdIsna value) with
    | .error e => .error e
    | .ok true => .ok default
    | .ok false =>
      match totalSeconds value with
      | some s => .ok s
      | none =>
        match tryFloat value with
        | some q => .ok q
        | none => .ok default

/-! ## Track-dominance core data model

The track-dominance segment-comparison component (spec §2-§4: Lap
Selector, Telemetry Normalizer, Segment Comparator, Path Renderer) is
part of this repository but its source file is not among the files
available here; the definitions below are therefore modelled from the
specification's contracts. -/

/-- Modelled from the spec: error taxonomy of the track-dominance core
(spec §7); the core's source file is not among the available files. -/
inductive CoreError where
  | noValidLap : CoreError
  | lapNotFound : CoreError
  | emptyTelemetry : CoreError
  | incompleteTelemetry : CoreError
deriving DecidableEq

/-- Modelled from the spec: a raw telemetry sample as delivered by the
upstream provider (spec §6): time offset in seconds, optional distance,
2D position, optional speed. -/
structure RawSample where
  time : ℚ
  distance : Option ℚ
  posX : ℚ
  posY : ℚ
  speed : Option ℚ
deriving DecidableEq

/-- Modelled from the spec: a distance-augmented telemetry sample
(spec §3 TelemetrySample): time offset, definite distance, 2D position. -/
structure Sample where
  time : ℚ
  dist : ℚ
  posX : ℚ
  posY : ℚ
deriving DecidableEq

/-- Modelled from the spec: a lap record (spec §3 Lap): lap number,
possibly-absent lap time in seconds, ordered raw samples. -/
structure Lap where
  number : ℕ
  lapTime : Option ℚ
  samples : List RawSample
deriving DecidableEq

/-! ## Lap Selector (spec §4.1)

The selection code visible in `compare_drivers_telemetry` delegates to
the external timing library; the selector contract is the spec's §4.1,
modelled here. -/

/-- Lap time of a lap known to have one (missing treated as 0 only
after filtering, never observed). -/
def timeOf (l : Lap) : ℚ := l.lapTime.getD 0

/-- Modelled from the spec: binary choice of the better lap under the
`fastest` policy — strictly smaller lap time wins, ties broken by
lowest lap number (spec §4.1); the selector's source file is not among
the available files. -/
def pickBetter (a b : Lap) : Lap :=
  if timeOf b < timeOf a then b
  else if timeOf b = timeOf a ∧ b.number < a.number then b
  else a

/-- Modelled from the spec: `fastest` selection policy (spec §4.1) —
discard laps with a missing lap time, fail with `NoValidLap` when none
remain, otherwise return the minimum-time lap, ties broken by lowest
lap number. -/
def selectFastest (laps : List Lap) : Except CoreError Lap :=
  match laps.filter (fun l => l.lapTime.isSome) with
  | [] => .error .noValidLap
  | l :: ls => .ok (ls.foldl pickBetter l)

/-- Modelled from the spec: `explicit(n)` selection policy (spec §4.1)
— first lap whose number equals `n`, else `LapNotFound`. -/
def selectExplicit (laps : List Lap) (n : ℕ) : Except CoreError Lap :=
  match laps.find? (fun l => l.number = n) with
  | some l => .ok l
  | none => .error .lapNotFound

/-- The preorder the `fastest` policy minimises: earlier in lap time,
ties resolved toward the lower lap number. -/
def lapLe (a b : Lap) : Prop :=
  timeOf a < timeOf b ∨ (timeOf a = timeOf b ∧ a.number ≤ b.number)

theorem lapLe_refl (a : Lap) : lapLe a a := Or.inr ⟨rfl, le_refl _⟩

theorem lapLe_trans {a b c : Lap} (hab : lapLe a b) (hbc : lapLe b c) :
    lapLe a c := by
  rcases hab with h | ⟨he, hn⟩ <;> rcases hbc with h' | ⟨he', hn'⟩
  · exact Or.inl (lt_trans h h')
  · exact Or.inl (he' ▸ h)
  · exact Or.inl (he ▸ h')
  · exact Or.inr ⟨he.trans he', hn.trans hn'⟩

theorem pickBetter_le_left (a b : Lap) : lapLe (pickBetter a b) a := by
  unfold pickBetter
  split
  · exact Or.inl (by assumption)
  · split
    · next h => exact Or.inr ⟨h.1, le_of_lt h.2⟩
    · exact lapLe_refl a

theorem pickBetter_le_right (a b : Lap) : lapLe (pickBetter a b) b := by
  unfold pickBetter
  split
  · exact lapLe_refl b
  · next hlt =>
    split
    · exact lapLe_refl b
    · next hne =>
      rcases lt_trichotomy (timeOf b) (timeOf a) with h | h | h
      · exact absurd h hlt
      · rcases Nat.lt_or_ge b.number a.number with hn | hn
        · exact absurd ⟨h, hn⟩ hne
        · exact Or.inr ⟨h.symm, hn⟩
      · exact Or.inl h

theorem pickBetter_mem (a b : Lap) : pickBetter a b = a ∨ pickBetter a b = b := by
  unfold pickBetter
  split
  · exact Or.inr rfl
  · split
    · exact Or.inr rfl
    · exact Or.inl rfl

/-- The fold computing the minimum stays inside the candidate set and
is a `lapLe`-lower bound of everything it saw. -/
theorem foldl_pickBetter_spec (ls : List Lap) (a : Lap) :
    (ls.foldl pickBetter a = a ∨ ls.foldl pickBetter a ∈ ls) ∧
      lapLe (ls.foldl pickBetter a) a ∧
      ∀ l ∈ ls, lapLe (ls.foldl pickBetter a) l := by
  induction ls generalizing a with
  | nil => exact ⟨Or.inl rfl, lapLe_refl a, by simp⟩
  | cons x xs ih =>
    obtain ⟨hmem, hle, hall⟩ := ih (pickBetter a x)
    refine ⟨?_, ?_, ?_⟩
    · rcases hmem with h | h
      · rcases pickBetter_mem a x with h' | h'
        · exact Or.inl (by rw [List.foldl_cons, h, h'])
        · exact Or.inr (by rw [List.foldl_cons, h, h']; exact List.mem_cons_self x xs)
      · exact Or.inr (List.mem_cons_of_mem _ h)
    · exact lapLe_trans hle (pickBetter_le_left a x)
    · intro l hl
      rcases List.mem_cons.mp hl with rfl | hl
      · exact lapLe_trans hle (pickBetter_le_right a l)
      · exact hall l hl

/-! ## Telemetry Normalizer (spec §4.2) -/

/-- Integration fallback of `add_distance`: cumulative distance from a
left-endpoint integral of speed over time.  `prev` is the previous raw
sample, `acc` its cumulative distance. -/
def integrateFrom (prev : RawSample) (acc : ℚ) : List RawSample → List Sample
  | [] => []
  | s :: rest =>
    let acc2 := acc + prev.speed.getD 0 * (s.time - prev.time)
    ⟨s.time, acc2, s.posX, s.posY⟩ :: integrateFrom s acc2 rest

/-- Modelled from the spec: `add_distance` (spec §4.2) — fail with
`EmptyTelemetry` on zero samples; when the provider already supplies a
distance on every sample, pass it through unchanged; otherwise derive
cumulative distance by integrating speed over time starting from 0.
The normalizer's source file is not among the available files. -/
def addDistance (samples : List RawSample) : Except CoreError (List Sample) :=
  match samples with
  | [] => .error .emptyTelemetry
  | s :: rest =>
    if (s :: rest).all (fun r => r.distance.isSome) then
      .ok ((s :: rest).map (fun r => ⟨r.time, r.distance.getD 0, r.posX, r.posY⟩))
    else
      .ok (⟨s.time, 0, s.posX, s.posY⟩ :: integrateFrom s 0 rest)

/-- Axis-aligned bounding box of a point set. -/
structure BBox where
  minX : ℚ
  minY : ℚ
  maxX : ℚ
  maxY : ℚ
deriving DecidableEq

/-- Bounding box of a nonempty point list headed by `p`. -/
def bboxFrom (p : ℚ × ℚ) : List (ℚ × ℚ) → BBox
  | [] => ⟨p.1, p.2, p.1, p.2⟩
  | q :: rest =>
    let b := bboxFrom q rest
    ⟨min p.1 b.minX, min p.2 b.minY, max p.1 b.maxX, max p.2 b.maxY⟩

/-- Bounding box of a point list (degenerate zero box when empty). -/
def bbox : List (ℚ × ℚ) → BBox
  | [] => ⟨0, 0, 0, 0⟩
  | p :: rest => bboxFrom p rest

/-- Result of `normalize_positions`: rescaled points, the uniform
scale, and the world-coordinate origin that was mapped to the viewport
origin. -/
structure NormalizeResult where
  points : List (ℚ × ℚ)
  scale : ℚ
  originX : ℚ
  originY : ℚ
deriving DecidableEq

/-- Modelled from the spec: `normalize_positions` (spec §4.2) — if the
bounding box has zero width or height return the input unchanged with
scale 1 and origin (0,0); otherwise rescale uniformly by
`min (viewportW / width) (viewportH / height)` translating the bounding
box's minimum corner to the viewport origin.  The normalizer's source
file is not among the available files. -/
def normalizePositions (pts : List (ℚ × ℚ)) (viewportW viewportH : ℚ) :
    NormalizeResult :=
  let b := bbox pts
  let width := b.maxX - b.minX
  let height := b.maxY - b.minY
  if width = 0 ∨ height = 0 then
    ⟨pts, 1, 0, 0⟩
  else
    let scale := min (viewportW / width) (viewportH / height)
    ⟨pts.map (fun p => ((p.1 - b.minX) * scale, (p.2 - b.minY) * scale)),
      scale, b.minX, b.minY⟩

/-- Every point of a list lies inside its bounding box. -/
theorem bboxFrom_bounds (p : ℚ × ℚ) (l : List (ℚ × ℚ)) :
    ∀ q ∈ p :: l, (bboxFrom p l).minX ≤ q.1 ∧ q.1 ≤ (bboxFrom p l).maxX ∧
      (bboxFrom p l).minY ≤ q.2 ∧ q.2 ≤ (bboxFrom p l).maxY := by
  induction l generalizing p with
  | nil =>
    intro q hq
    rcases List.mem_cons.mp hq with rfl | h
    · exact ⟨le_refl _, le_refl _, le_refl _, le_refl _⟩
    · simp at h
  | cons x xs ih =>
    intro q hq
    rcases List.mem_cons.mp hq with rfl | h
    · exact ⟨min_le_left _ _, le_max_left _ _, min_le_left _ _, le_max_left _ _⟩
    · obtain ⟨h1, h2, h3, h4⟩ := ih x q h
      exact ⟨le_trans (min_le_right _ _) h1, le_trans h2 (le_max_right _ _),
        le_trans (min_le_right _ _) h3, le_trans h4 (le_max_right _ _)⟩

/-! ## Segment Comparator (spec §4.3) -/

/-- Insert a `(distance, time)` point into a list sorted by ascending
distance. -/
def insertByDist (p : ℚ × ℚ) : List (ℚ × ℚ) → List (ℚ × ℚ)
  | [] => [p]
  | q :: rest => if p.1 ≤ q.1 then p :: q :: rest else q :: insertByDist p rest

/-- Sort `(distance, time)` points by ascending distance (stable
insertion sort). -/
def sortByDist : List (ℚ × ℚ) → List (ℚ × ℚ)
  | [] => []
  | p :: rest => insertByDist p (sortByDist rest)

/-- Linear interpolation through two points, evaluated at `d` (also
used for linear extension outside the pair). -/
def lerp (p q : ℚ × ℚ) (d : ℚ) : ℚ :=
  p.2 + (d - p.1) * (q.2 - p.2) / (q.1 - p.1)

/-- Modelled from the spec: piecewise-linear time-at-distance
interpolator over points sorted by ascending distance, with linear
extension beyond the sampled range; undefined (`none`) with fewer than
two points (spec §4.3 step 1, §4.3.3b).  The comparator's source file
is not among the available files. -/
def interpSeg (p q : ℚ × ℚ) : List (ℚ × ℚ) → ℚ → ℚ
  | [], d => lerp p q d
  | r :: rest, d => if d ≤ q.1 then lerp p q d else interpSeg q r rest d

/-- Evaluation of the interpolator: `none` with fewer than two points,
otherwise the piecewise-linear value from `interpSeg`. -/
def interpPoints (pts : List (ℚ × ℚ)) (d : ℚ) : Option ℚ :=
  match pts with
  | p :: q :: rest => some (interpSeg p q rest d)
  | _ => none

/-- Maximum recorded distance of a lap's samples (0 for no samples). -/
def maxDist : List Sample → ℚ
  | [] => 0
  | s :: rest => rest.foldl (fun a r => max a r.dist) s.dist

/-- The sorted `(distance, time)` pairs of a lap's samples. -/
def distTimePoints (samples : List Sample) : List (ℚ × ℚ) :=
  sortByDist (samples.map fun s => (s.dist, s.time))

/-- Modelled from the spec: one of the N segments of a comparison
(spec §3 SegmentAdvantage). -/
structure SegmentAdvantage where
  segmentIndex : ℕ
  startDistance : ℚ
  endDistance : ℚ
  path : List (ℚ × ℚ)
  advantage : Option ℚ
deriving DecidableEq

/-- Boundary `i` of the equal-width partition of `[0, total]` into `n`
segments. -/
def segmentBoundary (total : ℚ) (n i : ℕ) : ℚ := total * i / n

/-- Advantage of one segment: defined only when all four boundary
interpolations are defined, then `(other delta) - (reference delta)`
(spec §4.3 steps 3b-3c). -/
def advantageAt (refPts otherPts : List (ℚ × ℚ)) (dS dE : ℚ) : Option ℚ :=
  match interpPoints refPts dS, interpPoints refPts dE,
      interpPoints otherPts dS, interpPoints otherPts dE with
  | some tr0, some tr1, some to0, some to1 => some ((to1 - to0) - (tr1 - tr0))
  | _, _, _, _ => none

/-- Modelled from the spec: the segment comparator `compare`
(spec §4.3) — partition `[0, maxDist ref]` into `segmentCount`
equal-width segments; each segment carries the reference-lap points
falling inside it (inclusive bounds) as its path and the interpolated
advantage, `none` on interpolation gaps.  The comparator's source file
is not among the available files. -/
def compare (ref other : List Sample) (segmentCount : ℕ) :
    List SegmentAdvantage :=
  let total := maxDist ref
  let refPts := distTimePoints ref
  let otherPts := distTimePoints other
  (List.range segmentCount).map fun i =>
    let dS := segmentBoundary total segmentCount i
    let dE := segmentBoundary total segmentCount (i + 1)
    { segmentIndex := i
      startDistance := dS
      endDistance := dE
      path := (ref.filter fun s => dS ≤ s.dist ∧ s.dist ≤ dE).map
        fun s => (s.posX, s.posY)
      advantage := advantageAt refPts otherPts dS dE }

/-- The comparison pipeline on two laps: distance-augment both laps'
telemetry, then compare (spec §4.2-§4.3 composed as in §2). -/
def comparePipeline (ref other : Lap) (segmentCount : ℕ) :
    Except CoreError (List SegmentAdvantage) := do
  let r ← addDistance ref.samples
  let o ← addDistance other.samples
  return compare r o segmentCount

/-! ## Claim C10: `safe_float_conversion` -/

/-- C10 counterexample: `safe_float_conversion` is not total — on an
array-like argument with more than one element (e.g. the Python list
`[1, 2]`), `pd.isna` returns a two-element boolean array and using it
as the `if` condition raises an uncaught `ValueError`, so the function
raises instead of returning a float. -/
theorem safeFloatConversion_raises_on_array_input :
    safeFloatConversion (.pyArray [false, false]) 0 = .error .valueError := rfl

/-- C10 (amended): `safe_float_conversion` is total on every scalar
input: `None`, NaN and unconvertible scalars yield the supplied
default (0 when omitted), values with a `total_seconds` method yield
their seconds, and convertible scalars their float value; only
array-like inputs escape this (they raise from the `pd.isna`
truthiness test). -/
theorem safeFloatConversion_scalar_total (v : PyVal) (d s q : ℚ)
    (h : ∀ m, v ≠ .pyArray m) :
    (∃ r, safeFloatConversion v d = .ok r) ∧
      safeFloatConversion .pyNone d = .ok d ∧
      safeFloatConversion .pyNaN d = .ok d ∧
      safeFloatConversion .pyUnconvertible d = .ok d ∧
      safeFloatConversion (.pyTimedelta s) d = .ok s ∧
      safeFloatConversion (.pyNum q) d = .ok q ∧
      safeFloatConversion .pyNone = Except.ok (0 : ℚ) := by
  refine ⟨?_, rfl, rfl, rfl, rfl, rfl, rfl⟩
  cases v with
  | pyNone => exact ⟨d, rfl⟩
  | pyNaN => exact ⟨d, rfl⟩
  | pyTimedelta s' => exact ⟨s', rfl⟩
  | pyNum q' => exact ⟨q', rfl⟩
  | pyUnconvertible => exact ⟨d, rfl⟩
  | pyArray m => exact absurd rfl (h m)

/-- C10 witness: the amended theorem instantiated at a NaN input with
default 2 and auxiliary scalars 3 and 7. -/
theorem safeFloatConversion_scalar_total_witness :
    (∃ r, safeFloatConversion .pyNaN 2 = .ok r) ∧
      safeFloatConversion .pyNone 2 = .ok 2 ∧
      safeFloatConversion .pyNaN 2 = .ok 2 ∧
      safeFloatConversion .pyUnconvertible 2 = .ok 2 ∧
      safeFloatConversion (.pyTimedelta 3) 2 = .ok 3 ∧
      safeFloatConversion (.pyNum 7) 2 = .ok 7 ∧
      safeFloatConversion .pyNone = Except.ok (0 : ℚ) :=
  safeFloatConversion_scalar_total .pyNaN 2 3 7 (fun m hm => by cases hm)

/-! ## Claim C3: `fastest` selection -/

/-- C3: `fastest` selection discards laps with a missing lap time and
returns a remaining lap that has a lap time, is one of the inputs, and
beats every other lap that has a lap time — strictly smaller time, or
equal time and no larger lap number. -/
theorem selectFastest_picks_minimum (laps : List Lap) (m : Lap)
    (h : selectFastest laps = .ok m) :
    m ∈ laps ∧ m.lapTime.isSome = true ∧
      ∀ l ∈ laps, l.lapTime.isSome = true →
        (timeOf m < timeOf l ∨ (timeOf m = timeOf l ∧ m.number ≤ l.number)) := by
  unfold selectFastest at h
  rcases hf : laps.filter (fun l => l.lapTime.isSome) with _ | ⟨a, as⟩
  · rw [hf] at h; cases h
  · rw [hf] at h
    have hm : m = as.foldl pickBetter a := by
      cases h; rfl
    obtain ⟨hmem, hle, hall⟩ := foldl_pickBetter_spec as a
    have hmemf : m ∈ laps.filter (fun l => l.lapTime.isSome) := by
      rw [hf, hm]
      rcases hmem with h' | h'
      · rw [h']; exact List.mem_cons_self a as
      · exact List.mem_cons_of_mem _ h'
    refine ⟨List.mem_of_mem_filter hmemf, (List.mem_filter.mp hmemf).2, ?_⟩
    intro l hl hsome
    have hlf : l ∈ a :: as := by
      rw [← hf]; exact List.mem_filter.mpr ⟨hl, hsome⟩
    rcases List.mem_cons.mp hlf with rfl | hlf
    · exact hm ▸ hle
    · exact hm ▸ hall l hlf

/-- C3 witness: over laps with times [91.2 s, missing, 89.8 s] the
`fastest` policy returns the 89.8 s lap (lap 3), which then satisfies
the minimality properties. -/
theorem selectFastest_picks_minimum_witness :
    selectFastest
        [⟨1, some (mkRat 912 10), []⟩, ⟨2, none, []⟩,
          ⟨3, some (mkRat 898 10), []⟩] =
      .ok ⟨3, some (mkRat 898 10), []⟩ ∧
    (⟨3, some (mkRat 898 10), []⟩ : Lap) ∈
        [⟨1, some (mkRat 912 10), []⟩, ⟨2, none, []⟩,
          ⟨3, some (mkRat 898 10), []⟩] ∧
      (Lap.mk 3 (some (mkRat 898 10)) []).lapTime.isSome = true ∧
      ∀ l ∈ [⟨1, some (mkRat 912 10), []⟩, ⟨2, none, []⟩,
          ⟨3, some (mkRat 898 10), []⟩],
        l.lapTime.isSome = true →
        (timeOf ⟨3, some (mkRat 898 10), []⟩ < timeOf l ∨
          (timeOf ⟨3, some (mkRat 898 10), []⟩ = timeOf l ∧
            (Lap.mk 3 (some (mkRat 898 10)) []).number ≤ l.number)) :=
  ⟨by rfl, selectFastest_picks_minimum _ _ (by rfl)⟩

/-! ## Claim C6: selection failure modes -/

/-- C6: two independent failure modes — whenever no lap carries
number `n`, `explicit(n)` fails with `LapNotFound`, and whenever no
lap has a recorded lap time, `fastest` fails with `NoValidLap`.  In
the embedding these are the returned not-found error values;
selection is a single evaluation with no retry. -/
theorem selection_policy_failures (laps : List Lap) (n : ℕ) :
    ((∀ l ∈ laps, l.number ≠ n) →
        selectExplicit laps n = .error .lapNotFound) ∧
      ((∀ l ∈ laps, l.lapTime = none) →
        selectFastest laps = .error .noValidLap) := by
  constructor
  · intro hn
    unfold selectExplicit
    have : laps.find? (fun l => l.number = n) = none := by
      rw [List.find?_eq_none]
      intro l hl
      simpa using hn l hl
    rw [this]
  · intro ht
    unfold selectFastest
    have : laps.filter (fun l => l.lapTime.isSome) = [] := by
      rw [List.filter_eq_nil_iff]
      intro l hl
      simp [ht l hl]
    rw [this]

/-- C6 witness: a lap numbered 1 with a recorded 90 s time makes
`explicit(5)` fail with `LapNotFound`, and a lap with no lap time
makes `fastest` fail with `NoValidLap`. -/
theorem selection_policy_failures_witness :
    selectExplicit [⟨1, some 90, []⟩] 5 = .error .lapNotFound ∧
      selectFastest [⟨2, none, []⟩] = .error .noValidLap :=
  ⟨(selection_policy_failures [⟨1, some 90, []⟩] 5).1 (by decide),
    (selection_policy_failures [⟨2, none, []⟩] 5).2 (by decide)⟩

/-! ## Claim C7: empty telemetry -/

/-- C7: a lap with zero telemetry samples makes `add_distance` — and
therefore the whole comparison pipeline using that lap — fail with
`EmptyTelemetry`, the error surfaced as a not-found condition. -/
theorem comparePipeline_empty_telemetry (ref other : Lap) (n : ℕ)
    (h : ref.samples = [] ∨ other.samples = []) :
    addDistance ([] : List RawSample) = .error .emptyTelemetry ∧
      comparePipeline ref other n = .error .emptyTelemetry := by
  refine ⟨rfl, ?_⟩
  rcases h with h | h
  · simp only [comparePipeline, h]
    rfl
  · rcases hr : ref.samples with _ | ⟨s, rest⟩
    · simp only [comparePipeline, hr]
      rfl
    · simp only [comparePipeline, hr, h, addDistance]
      split <;> rfl

/-- C7 witness: a reference lap with no samples against a lap with one
sample fails with `EmptyTelemetry`. -/
theorem comparePipeline_empty_telemetry_witness :
    addDistance ([] : List RawSample) = .error .emptyTelemetry ∧
      comparePipeline ⟨1, some 90, []⟩
        ⟨2, some 91, [⟨0, some 0, 0, 0, some 10⟩]⟩ 20 =
        .error .emptyTelemetry :=
  comparePipeline_empty_telemetry _ _ 20 (Or.inl rfl)

/-! ## Claim C9: determinism of `compare` -/

/-- C9: the comparison is a pure function of its inputs — two runs of
`compare` (and of the full pipeline) on identical laps, telemetry and
segment count are definitionally equal; the embedding has no state
argument to read between calls. -/
theorem compare_idempotent :
    (∀ ref other n, compare ref other n = compare ref other n) ∧
      ∀ ref other n, comparePipeline ref other n = comparePipeline ref other n :=
  ⟨fun _ _ _ => rfl, fun _ _ _ => rfl⟩

/-! ## Claim C1: the segments tile the lap -/

/-- C1: for every positive `segment_count = n`, `compare` returns
exactly `n` segments whose indices are `0..n-1` in ascending order,
each segment's end distance equals the next segment's start distance,
the first segment starts at 0 and the last ends at the reference lap's
maximum recorded distance — the segments tile `[0, total_distance]`
with no gaps or overlaps. -/
theorem compare_returns_tiling_segments (ref other : List Sample) (n : ℕ)
    (hn : 0 < n) :
    (compare ref other n).length = n ∧
      (∀ i, ∀ h : i < (compare ref other n).length,
        ((compare ref other n)[i]).segmentIndex = i) ∧
      (∀ i, ∀ h : i + 1 < (compare ref other n).length,
        ((compare ref other n)[i]).endDistance =
          ((compare ref other n)[i + 1]).startDistance) ∧
      ((compare ref other n).head?.map (fun s => s.startDistance)) = some 0 ∧
      ((compare ref other n).getLast?.map (fun s => s.endDistance)) =
        some (maxDist ref) := by
  obtain ⟨m, rfl⟩ : ∃ m, n = m + 1 := ⟨n - 1, by omega⟩
  refine ⟨by simp [compare], ?_, ?_, ?_, ?_⟩
  · intro i h
    simp [compare]
  · intro i h
    simp only [compare, List.length_map, List.length_range] at h
    simp [compare, List.getElem_map, List.getElem_range]
  · simp [compare, List.range_succ_eq_map, segmentBoundary]
  · have hne : ((m : ℚ) + 1) ≠ 0 := by positivity
    simp [compare, List.range_succ, segmentBoundary]
    rw [mul_div_assoc, div_self hne, mul_one]

/-- C1 witness: the tiling properties instantiated on a two-sample
reference lap against an empty lap with four segments. -/
theorem compare_returns_tiling_segments_witness :
    (compare [⟨0, 0, 1, 2⟩, ⟨10, 100, 3, 4⟩] [] 4).length = 4 ∧
      (∀ i, ∀ h : i < (compare [⟨0, 0, 1, 2⟩, ⟨10, 100, 3, 4⟩] [] 4).length,
        ((compare [⟨0, 0, 1, 2⟩, ⟨10, 100, 3, 4⟩] [] 4)[i]).segmentIndex = i) ∧
      (∀ i, ∀ h : i + 1 <
          (compare [⟨0, 0, 1, 2⟩, ⟨10, 100, 3, 4⟩] [] 4).length,
        ((compare [⟨0, 0, 1, 2⟩, ⟨10, 100, 3, 4⟩] [] 4)[i]).endDistance =
          ((compare [⟨0, 0, 1, 2⟩, ⟨10, 100, 3, 4⟩] [] 4)[i + 1]).startDistance) ∧
      ((compare [⟨0, 0, 1, 2⟩, ⟨10, 100, 3, 4⟩] [] 4).head?.map
          (fun s => s.startDistance)) = some 0 ∧
      ((compare [⟨0, 0, 1, 2⟩, ⟨10, 100, 3, 4⟩] [] 4).getLast?.map
          (fun s => s.endDistance)) =
        some (maxDist [⟨0, 0, 1, 2⟩, ⟨10, 100, 3, 4⟩]) :=
  compare_returns_tiling_segments _ _ 4 (by decide)

/-! ## Claim C5: no segment is dropped -/

/-- C5: every index `i < segment_count` is represented in the output:
some emitted segment carries index `i`, its path is exactly the
(possibly empty) list of reference points inside its boundaries, and
its advantage is exactly the (possibly `none`) interpolated advantage
— a gap degrades that segment's fields but never drops the segment or
aborts the remaining ones. -/
theorem compare_emits_all_segments (ref other : List Sample) (n i : ℕ)
    (h : i < n) :
    ∃ s ∈ compare ref other n,
      s.segmentIndex = i ∧
      s.path = ((ref.filter fun p =>
          segmentBoundary (maxDist ref) n i ≤ p.dist ∧
            p.dist ≤ segmentBoundary (maxDist ref) n (i + 1)).map
          fun p => (p.posX, p.posY)) ∧
      s.advantage = advantageAt (distTimePoints ref) (distTimePoints other)
          (segmentBoundary (maxDist ref) n i)
          (segmentBoundary (maxDist ref) n (i + 1)) := by
  simp only [compare]
  refine ⟨_, List.mem_map_of_mem _ (List.mem_range.mpr h), rfl, rfl, rfl⟩

/-- C5 witness: with an empty other lap (so every advantage
interpolation is undefined) and a reference lap whose points all sit
outside segment 2, segment 2 is still emitted. -/
theorem compare_emits_all_segments_witness :
    ∃ s ∈ compare [⟨0, 0, 5, 5⟩, ⟨10, 100, 6, 6⟩] [] 4,
      s.segmentIndex = 2 ∧
      s.path = (([⟨0, 0, 5, 5⟩, ⟨10, 100, 6, 6⟩] :
          List Sample).filter (fun p =>
          segmentBoundary (maxDist [⟨0, 0, 5, 5⟩, ⟨10, 100, 6, 6⟩]) 4 2 ≤ p.dist ∧
            p.dist ≤ segmentBoundary
              (maxDist [⟨0, 0, 5, 5⟩, ⟨10, 100, 6, 6⟩]) 4 (2 + 1))).map
          (fun p => (p.posX, p.posY)) ∧
      s.advantage = advantageAt
          (distTimePoints [⟨0, 0, 5, 5⟩, ⟨10, 100, 6, 6⟩])
          (distTimePoints ([] : List Sample))
          (segmentBoundary (maxDist [⟨0, 0, 5, 5⟩, ⟨10, 100, 6, 6⟩]) 4 2)
          (segmentBoundary (maxDist [⟨0, 0, 5, 5⟩, ⟨10, 100, 6, 6⟩]) 4 (2 + 1)) :=
  compare_emits_all_segments _ _ 4 2 (by decide)

/-! ## Claim C2: advantage sign convention -/

/-- C2: whenever all four boundary interpolations of a segment are
defined, its advantage is `(other delta) - (reference delta)`, and the
advantage is positive exactly when the reference driver's interpolated
time across the segment is smaller — driver 1 (the reference driver)
traversed the segment in less time, i.e. was faster. -/
theorem compare_advantage_semantics (ref other : List Sample) (n i : ℕ)
    (h : i < (compare ref other n).length) (tr0 tr1 to0 to1 : ℚ)
    (h1 : interpPoints (distTimePoints ref)
        ((compare ref other n)[i]).startDistance = some tr0)
    (h2 : interpPoints (distTimePoints ref)
        ((compare ref other n)[i]).endDistance = some tr1)
    (h3 : interpPoints (distTimePoints other)
        ((compare ref other n)[i]).startDistance = some to0)
    (h4 : interpPoints (distTimePoints other)
        ((compare ref other n)[i]).endDistance = some to1) :
    ((compare ref other n)[i]).advantage =
        some ((to1 - to0) - (tr1 - tr0)) ∧
      (0 < (to1 - to0) - (tr1 - tr0) ↔ tr1 - tr0 < to1 - to0) := by
  have hs : ((compare ref other n)[i]).startDistance =
      segmentBoundary (maxDist ref) n i := by
    simp [compare]
  have hen : ((compare ref other n)[i]).endDistance =
      segmentBoundary (maxDist ref) n (i + 1) := by
    simp [compare]
  have ha : ((compare ref other n)[i]).advantage =
      advantageAt (distTimePoints ref) (distTimePoints other)
        (segmentBoundary (maxDist ref) n i)
        (segmentBoundary (maxDist ref) n (i + 1)) := by
    simp [compare]
  rw [hs] at h1 h3
  rw [hen] at h2 h4
  refine ⟨?_, sub_pos⟩
  rw [ha, advantageAt, h1, h2, h3, h4]

/-- C2 witness: the spec's worked scenario — reference samples
`(d,t) = (0,0),(50,5),(100,11)` against `(0,0),(50,4),(100,9)` with two
segments; on segment 0 the reference delta is 5, the other delta is 4,
and the advantage is `some ((4 - 0) - (5 - 0)) = some (-1)`. -/
theorem compare_advantage_semantics_witness :
    ((compare [⟨0, 0, 0, 0⟩, ⟨5, 50, 0, 0⟩, ⟨11, 100, 0, 0⟩]
        [⟨0, 0, 0, 0⟩, ⟨4, 50, 0, 0⟩, ⟨9, 100, 0, 0⟩] 2).get
          ⟨0, by with_unfolding_all decide⟩).advantage =
        some ((4 - 0) - (5 - 0)) ∧
      (0 < (4 - 0 : ℚ) - (5 - 0) ↔ (5 - 0 : ℚ) < 4 - 0) :=
  compare_advantage_semantics
    [⟨0, 0, 0, 0⟩, ⟨5, 50, 0, 0⟩, ⟨11, 100, 0, 0⟩]
    [⟨0, 0, 0, 0⟩, ⟨4, 50, 0, 0⟩, ⟨9, 100, 0, 0⟩] 2 0
    (by with_unfolding_all decide) 0 5 0 4
    (by with_unfolding_all decide) (by with_unfolding_all decide)
    (by with_unfolding_all decide) (by with_unfolding_all decide)

/-! ## Claim C4: distance monotonicity -/

/-- The integration fallback produces adjacent-wise non-decreasing
distances when speeds are non-negative and times non-decreasing. -/
theorem integrateFrom_chain (l : List RawSample) :
    ∀ prev acc, (∀ s ∈ prev :: l, 0 ≤ s.speed.getD 0) →
      List.Chain' (fun a b => a.time ≤ b.time) (prev :: l) →
      List.Chain' (fun a b : Sample => a.dist ≤ b.dist)
        (⟨prev.time, acc, prev.posX, prev.posY⟩ :: integrateFrom prev acc l) := by
  induction l with
  | nil =>
    intro prev acc _ _
    simp [integrateFrom]
  | cons x xs ih =>
    intro prev acc hsp hch
    simp only [integrateFrom]
    rw [List.chain'_cons]
    constructor
    · have h0 : 0 ≤ prev.speed.getD 0 := hsp prev (List.mem_cons_self _ _)
      have hpx : prev.time ≤ x.time := (List.chain'_cons.mp hch).1
      exact le_add_of_nonneg_right (mul_nonneg h0 (sub_nonneg.mpr hpx))
    · exact ih x _ (fun s hs => hsp s (List.mem_cons_of_mem _ hs))
        (List.chain'_cons.mp hch).2

/-- C4: for every lap with at least one sample — whose samples are
time-ordered with non-negative speeds and (when the provider supplies
them) non-decreasing distances — `add_distance` succeeds and its output
distances are non-decreasing with sample index. -/
theorem addDistance_monotone (samples : List RawSample)
    (hne : samples ≠ [])
    (hT : List.Chain' (fun a b => a.time ≤ b.time) samples)
    (hV : ∀ s ∈ samples, 0 ≤ s.speed.getD 0)
    (hD : List.Chain' (fun a b =>
        a.distance.getD 0 ≤ b.distance.getD 0) samples) :
    ∃ out, addDistance samples = .ok out ∧
      List.Pairwise (fun a b : Sample => a.dist ≤ b.dist) out := by
  haveI : IsTrans Sample (fun a b => a.dist ≤ b.dist) :=
    ⟨fun _ _ _ hab hbc => le_trans hab hbc⟩
  rcases samples with _ | ⟨s, rest⟩
  · exact absurd rfl hne
  · rw [addDistance]
    split
    · refine ⟨_, rfl, ?_⟩
      rw [← List.chain'_iff_pairwise]
      exact (List.chain'_map _).mpr hD
    · refine ⟨_, rfl, ?_⟩
      rw [← List.chain'_iff_pairwise]
      exact integrateFrom_chain rest s 0 hV hT

/-- C4 witness: two samples with no provider distance, speeds 10 and
12 and times 0 and 1 integrate to non-decreasing distances. -/
theorem addDistance_monotone_witness :
    ∃ out, addDistance
        [⟨0, none, 0, 0, some 10⟩, ⟨1, none, 0, 0, some 12⟩] = .ok out ∧
      List.Pairwise (fun a b : Sample => a.dist ≤ b.dist) out :=
  addDistance_monotone _ (by decide)
    (List.Chain.cons (by decide) List.Chain.nil) (by decide)
    (List.Chain.cons (by decide) List.Chain.nil)

/-! ## Claim C8: normalization fits the viewport -/

/-- Every member of a point list lies inside `bbox` of the list. -/
theorem bbox_bounds (pts : List (ℚ × ℚ)) (p : ℚ × ℚ) (hp : p ∈ pts) :
    (bbox pts).minX ≤ p.1 ∧ p.1 ≤ (bbox pts).maxX ∧
      (bbox pts).minY ≤ p.2 ∧ p.2 ≤ (bbox pts).maxY := by
  cases pts with
  | nil => cases hp
  | cons p0 rest => exact bboxFrom_bounds p0 rest p hp

/-- C8: on a non-degenerate bounding box and a positive viewport,
`normalize_positions` uses the uniform scale
`min (viewport_width / width, viewport_height / height)`, maps the
bounding box's minimum corner to the viewport origin, and every output
point lies within `[0, viewport_width] × [0, viewport_height]`. -/
theorem normalizePositions_bounded (pts : List (ℚ × ℚ)) (vw vh : ℚ)
    (hx : (bbox pts).minX < (bbox pts).maxX)
    (hy : (bbox pts).minY < (bbox pts).maxY)
    (hvw : 0 < vw) (hvh : 0 < vh) :
    (normalizePositions pts vw vh).scale =
        min (vw / ((bbox pts).maxX - (bbox pts).minX))
          (vh / ((bbox pts).maxY - (bbox pts).minY)) ∧
      (normalizePositions pts vw vh).originX = (bbox pts).minX ∧
      (normalizePositions pts vw vh).originY = (bbox pts).minY ∧
      (normalizePositions pts vw vh).points = pts.map (fun p =>
        ((p.1 - (bbox pts).minX) * (normalizePositions pts vw vh).scale,
          (p.2 - (bbox pts).minY) * (normalizePositions pts vw vh).scale)) ∧
      ∀ q ∈ (normalizePositions pts vw vh).points,
        0 ≤ q.1 ∧ q.1 ≤ vw ∧ 0 ≤ q.2 ∧ q.2 ≤ vh := by
  have hcond : ¬((bbox pts).maxX - (bbox pts).minX = 0 ∨
      (bbox pts).maxY - (bbox pts).minY = 0) := by
    push_neg
    exact ⟨sub_ne_zero.mpr (ne_of_gt hx), sub_ne_zero.mpr (ne_of_gt hy)⟩
  have hres : normalizePositions pts vw vh =
      ⟨pts.map (fun p =>
          ((p.1 - (bbox pts).minX) *
            min (vw / ((bbox pts).maxX - (bbox pts).minX))
              (vh / ((bbox pts).maxY - (bbox pts).minY)),
            (p.2 - (bbox pts).minY) *
            min (vw / ((bbox pts).maxX - (bbox pts).minX))
              (vh / ((bbox pts).maxY - (bbox pts).minY)))),
        min (vw / ((bbox pts).maxX - (bbox pts).minX))
          (vh / ((bbox pts).maxY - (bbox pts).minY)),
        (bbox pts).minX, (bbox pts).minY⟩ := by
    simp only [normalizePositions]
    rw [if_neg hcond]
  rw [hres]
  have hw0 : 0 < (bbox pts).maxX - (bbox pts).minX := sub_pos.mpr hx
  have hh0 : 0 < (bbox pts).maxY - (bbox pts).minY := sub_pos.mpr hy
  have hsc0 : 0 ≤ min (vw / ((bbox pts).maxX - (bbox pts).minX))
      (vh / ((bbox pts).maxY - (bbox pts).minY)) :=
    le_min (le_of_lt (div_pos hvw hw0)) (le_of_lt (div_pos hvh hh0))
  refine ⟨rfl, rfl, rfl, rfl, ?_⟩
  intro q hq
  obtain ⟨p, hp, rfl⟩ := List.mem_map.mp hq
  obtain ⟨hb1, hb2, hb3, hb4⟩ := bbox_bounds pts p hp
  refine ⟨mul_nonneg (sub_nonneg.mpr hb1) hsc0, ?_,
    mul_nonneg (sub_nonneg.mpr hb3) hsc0, ?_⟩
  · calc (p.1 - (bbox pts).minX) *
          min (vw / ((bbox pts).maxX - (bbox pts).minX))
            (vh / ((bbox pts).maxY - (bbox pts).minY)) ≤
        ((bbox pts).maxX - (bbox pts).minX) *
          (vw / ((bbox pts).maxX - (bbox pts).minX)) :=
          mul_le_mul (sub_le_sub_right hb2 _) (min_le_left _ _) hsc0
            (le_of_lt hw0)
      _ = vw := by
          rw [mul_comm]
          exact div_mul_cancel₀ vw (ne_of_gt hw0)
  · calc (p.2 - (bbox pts).minY) *
          min (vw / ((bbox pts).maxX - (bbox pts).minX))
            (vh / ((bbox pts).maxY - (bbox pts).minY)) ≤
        ((bbox pts).maxY - (bbox pts).minY) *
          (vh / ((bbox pts).maxY - (bbox pts).minY)) :=
          mul_le_mul (sub_le_sub_right hb4 _) (min_le_right _ _) hsc0
            (le_of_lt hh0)
      _ = vh := by
          rw [mul_comm]
          exact div_mul_cancel₀ vh (ne_of_gt hh0)

/-- C8 witness: the two points (0,0) and (2,1) in a 100×50 viewport —
non-degenerate box of width 2 and height 1 — land inside the
viewport. -/
theorem normalizePositions_bounded_witness :
    (normalizePositions [(0, 0), (2, 1)] 100 50).scale =
        min (100 / ((bbox [(0, 0), (2, 1)]).maxX -
            (bbox [(0, 0), (2, 1)]).minX))
          (50 / ((bbox [(0, 0), (2, 1)]).maxY -
            (bbox [(0, 0), (2, 1)]).minY)) ∧
      (normalizePositions [(0, 0), (2, 1)] 100 50).originX =
        (bbox [(0, 0), (2, 1)]).minX ∧
      (normalizePositions [(0, 0), (2, 1)] 100 50).originY =
        (bbox [(0, 0), (2, 1)]).minY ∧
      (normalizePositions [(0, 0), (2, 1)] 100 50).points =
        ([(0, 0), (2, 1)] : List (ℚ × ℚ)).map (fun p =>
          ((p.1 - (bbox [(0, 0), (2, 1)]).minX) *
            (normalizePositions [(0, 0), (2, 1)] 100 50).scale,
            (p.2 - (bbox [(0, 0), (2, 1)]).minY) *
            (normalizePositions [(0, 0), (2, 1)] 100 50).scale)) ∧
      ∀ q ∈ (normalizePositions [(0, 0), (2, 1)] 100 50).points,
        0 ≤ q.1 ∧ q.1 ≤ 100 ∧ 0 ≤ q.2 ∧ q.2 ≤ 50 :=
  normalizePositions_bounded [(0, 0), (2, 1)] 100 50
    (by with_unfolding_all decide) (by with_unfolding_all decide)
    (by decide) (by decide)

end F1Backend
